import Mathlib

/-!
Verification of the confusion-matrix plotting utility
(`plot_confusion_matrix.py`).

The script reads a CSV file into labels and a numeric matrix, renders a
heatmap, and in directory mode recursively processes every file whose name
matches the glob pattern `*confusion_matrix.csv`, isolating per-file
failures.

Strings are modelled as `List Char`.  Numeric cell values are modelled as
rationals: every decimal literal the parser accepts denotes an exact
rational, which is what the behaviour under scrutiny (which cells parse,
which raise `ValueError`) depends on.  CSV quoting is not modelled: none of
the behaviours examined here involve quoted cells, and the inputs in the
specification are quote-free.
-/

namespace PlotCM

instance {ε α : Type} [DecidableEq ε] [DecidableEq α] : DecidableEq (Except ε α) :=
  fun a b =>
    match a, b with
    | .ok x, .ok y => decidable_of_iff (x = y) (by simp)
    | .error e, .error f => decidable_of_iff (e = f) (by simp)
    | .ok _, .error _ => isFalse (by simp)
    | .error _, .ok _ => isFalse (by simp)

/-- Splits a character list on a separator character, keeping empty
segments, as Python string splitting does: `splitOnChar ',' "a,,b"` is
`["a", "", "b"]` and the split of `[]` is `[[]]`. -/
def splitOnChar (sep : Char) : List Char → List (List Char)
  | [] => [[]]
  | c :: rest =>
    match splitOnChar sep rest with
    | [] => [[]]
    | hd :: tl => if c = sep then [] :: hd :: tl else (c :: hd) :: tl

/-- The rows produced by `csv.reader` on the file's content (quote-free
fragment): the content is split into lines at newline characters, a
trailing newline does not open a final empty line, an empty file has no
rows, and a blank line is read as the empty row `[]`; every other line is
split at commas. -/
def csvRows (content : List Char) : List (List (List Char)) :=
  let ls := splitOnChar '\n' content
  let ls' := match ls.getLast? with
    | some [] => ls.dropLast
    | _ => ls
  ls'.map (fun l => if l = [] then [] else splitOnChar ',' l)

/-- Decimal digits of a cell accumulated into a natural number. -/
def digitsToNat (ds : List Char) : Nat :=
  ds.foldl (fun n c => 10 * n + (c.toNat - 48)) 0

/-- The unsigned part of Python `float` parsing, restricted to plain
decimal literals: digits with an optional decimal point, at least one digit
overall (`"2"`, `"4.5"`, `".5"`, `"1."` parse; `""`, `"."`, `"A"` do not).
Exponents, infinities and surrounding whitespace are not modelled; no input
examined here uses them. -/
def parseUnsigned (s : List Char) : Option ℚ :=
  let intPart := s.takeWhile Char.isDigit
  let rest := s.dropWhile Char.isDigit
  match rest with
  | [] => if intPart = [] then none else some (digitsToNat intPart : ℚ)
  | '.' :: frac =>
    if frac.all Char.isDigit && !(intPart = [] && frac = []) then
      some ((digitsToNat intPart : ℚ) + (digitsToNat frac : ℚ) / (10 : ℚ) ^ frac.length)
    else none
  | _ => none

/-- Python `float(x)` on a cell, as used at line 37 of the script: an
optional sign followed by an unsigned decimal literal.  `none` models a
`ValueError`. -/
def parseFloat (s : List Char) : Option ℚ :=
  match s with
  | '-' :: rest => (parseUnsigned rest).map (fun q => -q)
  | '+' :: rest => parseUnsigned rest
  | _ => parseUnsigned s

/-- The two ways loading can raise: an out-of-bounds index (`rows[0]` on an
empty row list, `row[0]` on an empty row) and a non-numeric value cell
(`float(x)` raising `ValueError`). -/
inductive LoadError where
  | indexError : LoadError
  | valueError : List Char → LoadError
deriving DecidableEq, Repr

/-- The parsed result: row labels, column labels, and the numeric matrix
(the script's `row_labels`, `class_labels`, `matrix`). -/
structure ConfusionMatrix where
  rowLabels : List (List Char)
  colLabels : List (List Char)
  data : List (List ℚ)
deriving DecidableEq, Repr

/-- The list comprehension `[float(x) for x in row[1:]]`: values are parsed
left to right and the first non-numeric cell raises. -/
def parseVals : List (List Char) → Except LoadError (List ℚ)
  | [] => .ok []
  | c :: cs =>
    match parseFloat c with
    | none => .error (.valueError c)
    | some q =>
      match parseVals cs with
      | .error e => .error e
      | .ok qs => .ok (q :: qs)

/-- One iteration of the loop over `rows[1:]`: `row[0]` is the row label
(an `IndexError` on an empty row) and the remaining cells are parsed as
floats. -/
def loadRow (row : List (List Char)) : Except LoadError (List Char × List ℚ) :=
  match row with
  | [] => .error .indexError
  | label :: vals =>
    match parseVals vals with
    | .error e => .error e
    | .ok qs => .ok (label, qs)

/-- The loop over `rows[1:]`, stopping at the first raised error. -/
def loadRows : List (List (List Char)) → Except LoadError (List (List Char × List ℚ))
  | [] => .ok []
  | r :: rs =>
    match loadRow r with
    | .error e => .error e
    | .ok p =>
      match loadRows rs with
      | .error e => .error e
      | .ok ps => .ok (p :: ps)

/-- Lines 29–39 of the script, starting from the parsed row list:
`rows[0]` raises on an empty list, `rows[0][1:]` (a slice, never raising)
gives the column labels, and the loop over `rows[1:]` builds the row
labels and the matrix. -/
def loadFromRows (rows : List (List (List Char))) : Except LoadError ConfusionMatrix :=
  match rows with
  | [] => .error .indexError
  | header :: dataRows =>
    match loadRows dataRows with
    | .error e => .error e
    | .ok ps => .ok ⟨ps.map Prod.fst, header.drop 1, ps.map Prod.snd⟩

/-- The whole CSV-to-matrix loader (lines 25–39): read the file content
into rows, then parse them. -/
def loadConfusionMatrix (content : List Char) : Except LoadError ConfusionMatrix :=
  loadFromRows (csvRows content)

/-- `pat` is an initial segment of the second list. -/
def listStartsWith : List Char → List Char → Bool
  | [], _ => true
  | _ :: _, [] => false
  | p :: ps, c :: cs => p = c && listStartsWith ps cs

/-- The scan of Python `s.replace(pat, rep)`, with an explicit fuel
argument making the recursion structural; `replaceAll` instantiates the
fuel with the length of the scanned list, which suffices because each
step consumes at least one character. -/
def replaceAllAux (pat rep : List Char) : Nat → List Char → List Char
  | 0, s => s
  | _ + 1, [] => []
  | fuel + 1, c :: rest =>
    if pat ≠ [] ∧ listStartsWith pat (c :: rest) = true then
      rep ++ replaceAllAux pat rep fuel ((c :: rest).drop pat.length)
    else
      c :: replaceAllAux pat rep fuel rest

/-- Python `s.replace(pat, rep)`: every non-overlapping occurrence of
`pat` in `s`, scanned left to right, is replaced by `rep`.  (Python's
behaviour on an empty pattern is not modelled; the script only replaces
`".csv"`.) -/
def replaceAll (pat rep s : List Char) : List Char :=
  replaceAllAux pat rep s.length s

def dotCsv : List Char := ".csv".data

def dotPng : List Char := ".png".data

/-- Line 56 of the script: the auto-generated output file name,
`str(csv_file).replace('.csv', '.png')`. -/
def defaultOutputPath (csvFile : List Char) : List Char :=
  replaceAll dotCsv dotPng csvFile

/-- Lines 54–58: the path the image is saved to — the explicit output
file when one was supplied, the auto-generated name otherwise. -/
def outputPath (csvFile : List Char) (outFile : Option (List Char)) : List Char :=
  match outFile with
  | some o => o
  | none => defaultOutputPath csvFile

/-- `plot_confusion_matrix(csv_file, output_file)` as far as its
observable file behaviour goes: the loader may raise, and otherwise one
image is written at `outputPath`.  The result carries the parsed matrix
and the written path. -/
def plotConfusionMatrix (content csvFile : List Char)
    (outFile : Option (List Char)) : Except LoadError (ConfusionMatrix × List Char) :=
  match loadConfusionMatrix content with
  | .error e => .error e
  | .ok cm => .ok (cm, outputPath csvFile outFile)

/-- The fnmatch-style matching used by `Path.rglob` on a single file
name: `*` matches any (possibly empty) run of characters of the name,
every other pattern character matches itself. -/
def globMatch : List Char → List Char → Bool
  | [], s => s.isEmpty
  | p :: ps, s =>
    if p = '*' then
      (List.range (s.length + 1)).any (fun n => globMatch ps (s.drop n))
    else
      match s with
      | [] => false
      | c :: cs => p = c && globMatch ps cs

/-- The pattern handed to `rglob` at line 70. -/
def matrixGlob : List Char := "*confusion_matrix.csv".data

/-- A file of the directory tree being scanned: its full path (as the
script would pass it to the plotting function), its final name component
(what `rglob` matches the pattern against), and its content. -/
structure FsFile where
  path : List Char
  name : List Char
  content : List Char
deriving DecidableEq, Repr

/-- `Path(directory).rglob('*confusion_matrix.csv')`: the files of the
tree, at any depth, whose name matches the pattern.  The recursive walk is
modelled by `fs` listing every file of the tree. -/
def findMatrixFiles (fs : List FsFile) : List FsFile :=
  fs.filter (fun f => globMatch matrixGlob f.name)

/-- The loop of lines 78–82, in order: a file that loads contributes an
image at its default output path; a file whose processing raises is caught
and contributes an error message naming its path. -/
def processFiles : List FsFile → List (List Char) × List (List Char)
  | [] => ([], [])
  | f :: rest =>
    let r := processFiles rest
    match plotConfusionMatrix f.content f.path none with
    | .ok (_, out) => (out :: r.1, r.2)
    | .error _ => (r.1, f.path :: r.2)

/-- The observable outcome of `plot_all_confusion_matrices`: whether the
nothing-found message was printed, the reported match count, the written
image paths in order, and the reported per-file error paths in order. -/
structure BatchResult where
  reportedNoFiles : Bool
  foundCount : Nat
  images : List (List Char)
  errors : List (List Char)
deriving DecidableEq, Repr

/-- `plot_all_confusion_matrices(directory)` (lines 63–82) over the files
of the tree. -/
def plotAllConfusionMatrices (fs : List FsFile) : BatchResult :=
  let files := findMatrixFiles fs
  if files.isEmpty then ⟨true, 0, [], []⟩
  else
    let r := processFiles files
    ⟨false, files.length, r.1, r.2⟩

/-- `main` in directory mode: `plot_all_confusion_matrices` is called and
`main` then falls through, so the process exit status is 0 whatever the
batch outcome. -/
def mainOnDirectory (fs : List FsFile) : Nat × BatchResult :=
  (0, plotAllConfusionMatrices fs)

/-- Modelled from the spec's words (for comparison with the code's
`defaultOutputPath`): "the input path with its file extension replaced —
the input path unchanged except that its trailing extension becomes the
image extension".  Everything from the last dot onward is replaced by the
new extension (appended when the path has no dot). -/
def specReplaceTrailingExt (p newExt : List Char) : List Char :=
  if '.' ∈ p then ((p.reverse.dropWhile (fun c => c ≠ '.')).drop 1).reverse ++ newExt
  else p ++ newExt

/-! ### Lemmas about the loader -/

@[simp] lemma except_isOk_error {ε α : Type} (e : ε) :
    (Except.error e : Except ε α).isOk = false := rfl

@[simp] lemma except_isOk_ok {ε α : Type} (a : α) :
    (Except.ok a : Except ε α).isOk = true := rfl

lemma parseVals_eq_ok (l : List (List Char)) (h : ∀ c ∈ l, (parseFloat c).isSome = true) :
    parseVals l = .ok (l.filterMap parseFloat) := by
  induction l with
  | nil => rfl
  | cons c cs ih =>
    obtain ⟨q, hq⟩ := Option.isSome_iff_exists.mp (h c (by simp))
    rw [List.filterMap_cons]
    simp only [parseVals, hq, ih (fun x hx => h x (by simp [hx]))]

lemma loadRow_eq_ok (r : List (List Char)) (hne : r ≠ [])
    (h : ∀ c ∈ r.drop 1, (parseFloat c).isSome = true) :
    loadRow r = .ok (r.headD [], (r.drop 1).filterMap parseFloat) := by
  match r with
  | [] => exact absurd rfl hne
  | label :: vals =>
    simp only [loadRow, List.drop_one, List.tail_cons, List.headD_cons]
    rw [parseVals_eq_ok vals (by simpa using h)]

lemma loadRows_eq_ok (rs : List (List (List Char)))
    (h1 : ∀ r ∈ rs, r ≠ [])
    (h2 : ∀ r ∈ rs, ∀ c ∈ r.drop 1, (parseFloat c).isSome = true) :
    loadRows rs = .ok (rs.map (fun r => (r.headD [], (r.drop 1).filterMap parseFloat))) := by
  induction rs with
  | nil => rfl
  | cons r rs ih =>
    simp only [loadRows, List.map_cons]
    rw [loadRow_eq_ok r (h1 r (by simp)) (h2 r (by simp))]
    rw [ih (fun x hx => h1 x (by simp [hx])) (fun x hx => h2 x (by simp [hx]))]

lemma loadFromRows_eq_ok (header : List (List Char)) (rs : List (List (List Char)))
    (h1 : ∀ r ∈ rs, r ≠ [])
    (h2 : ∀ r ∈ rs, ∀ c ∈ r.drop 1, (parseFloat c).isSome = true) :
    loadFromRows (header :: rs) =
      .ok ⟨rs.map (fun r => r.headD []), header.drop 1,
           rs.map (fun r => (r.drop 1).filterMap parseFloat)⟩ := by
  simp only [loadFromRows]
  rw [loadRows_eq_ok rs h1 h2]
  simp [Function.comp]

lemma parseVals_isOk_false (l : List (List Char)) (c : List Char)
    (hc : c ∈ l) (hbad : parseFloat c = none) : (parseVals l).isOk = false := by
  induction l with
  | nil => simp at hc
  | cons d ds ih =>
    rcases List.mem_cons.mp hc with h | h
    · subst h
      simp [parseVals, hbad]
    · simp only [parseVals]
      cases hd : parseFloat d with
      | none => simp
      | some q =>
        have := ih h
        cases hds : parseVals ds with
        | error e => simp
        | ok qs => rw [hds] at this; simp at this

lemma loadRow_isOk_false (r : List (List Char)) (c : List Char)
    (hc : c ∈ r.drop 1) (hbad : parseFloat c = none) : (loadRow r).isOk = false := by
  match r with
  | [] => simp [loadRow]
  | label :: vals =>
    have := parseVals_isOk_false vals c (by simpa using hc) hbad
    simp only [loadRow]
    cases hv : parseVals vals with
    | error e => simp
    | ok qs => rw [hv] at this; simp at this

lemma loadRows_isOk_false (rs : List (List (List Char))) (r : List (List Char))
    (hr : r ∈ rs) (hbad : (loadRow r).isOk = false) : (loadRows rs).isOk = false := by
  induction rs with
  | nil => simp at hr
  | cons d ds ih =>
    rcases List.mem_cons.mp hr with h | h
    · subst h
      simp only [loadRows]
      cases hd : loadRow r with
      | error e => simp
      | ok p => rw [hd] at hbad; simp at hbad
    · simp only [loadRows]
      cases hd : loadRow d with
      | error e => simp
      | ok p =>
        have := ih h
        cases hds : loadRows ds with
        | error e => simp
        | ok ps => rw [hds] at this; simp at this

lemma loadFromRows_isOk_false (header : List (List Char)) (rs : List (List (List Char)))
    (h : (loadRows rs).isOk = false) : (loadFromRows (header :: rs)).isOk = false := by
  simp only [loadFromRows]
  cases hrs : loadRows rs with
  | error e => simp
  | ok ps => rw [hrs] at h; simp at h

lemma filterMap_length_of_isSome {α β : Type} (p : α → Option β) (l : List α)
    (h : ∀ x ∈ l, (p x).isSome = true) : (l.filterMap p).length = l.length := by
  induction l with
  | nil => rfl
  | cons x xs ih =>
    obtain ⟨y, hy⟩ := Option.isSome_iff_exists.mp (h x (by simp))
    rw [List.filterMap_cons, hy]
    simp [ih (fun z hz => h z (by simp [hz]))]

/-! ### Claims about the loader -/


/-- C1 (counterexample): the input `",A,B"` has exactly one CSV row — fewer
than two — yet the loader succeeds on it (with an empty matrix) instead of
returning an error, contrary to the claim. -/
theorem c1_counterexample :
    (csvRows ",A,B".data).length < 2 ∧ (loadConfusionMatrix ",A,B".data).isOk = true := by
  decide

/-- C1 (amended): the loader errors when the parsed input has no rows at
all, and when some value cell of a data row is non-numeric; an input with
exactly one row, however, loads successfully as a matrix with no data
rows. -/
theorem c1_load_failure_conditions :
    (∀ content, csvRows content = [] → (loadConfusionMatrix content).isOk = false) ∧
    (∀ (header : List (List Char)) (rs : List (List (List Char))) (r : List (List Char))
      (c : List Char), r ∈ rs → c ∈ r.drop 1 → parseFloat c = none →
      (loadFromRows (header :: rs)).isOk = false) ∧
    (∀ header : List (List Char), (loadFromRows [header]).isOk = true) := by
  refine ⟨?_, ?_, ?_⟩
  · intro content h
    unfold loadConfusionMatrix
    rw [h]
    rfl
  · intro header rs r c hr hc hbad
    exact loadFromRows_isOk_false header rs
      (loadRows_isOk_false rs r hr (loadRow_isOk_false r c hc hbad))
  · intro header
    rfl

theorem c1_load_failure_conditions_witness :
    (csvRows "".data = [] ∧ (loadConfusionMatrix "".data).isOk = false) ∧
    (("oops".data ∈ (["X".data, "oops".data] : List (List Char)).drop 1 ∧
        parseFloat "oops".data = none) ∧
      (loadFromRows [[[], "A".data], ["X".data, "oops".data]]).isOk = false) ∧
    (loadFromRows [[[], "A".data, "B".data]]).isOk = true :=
  ⟨⟨by decide, c1_load_failure_conditions.1 "".data (by decide)⟩,
   ⟨⟨by decide, by decide⟩,
    c1_load_failure_conditions.2.1 [[], "A".data] [["X".data, "oops".data]]
      ["X".data, "oops".data] "oops".data (by decide) (by decide) (by decide)⟩,
   c1_load_failure_conditions.2.2 [[], "A".data, "B".data]⟩

/-- C2: on any parsed row list, the loaded matrix's column labels are the
first row's cells without the first, the row labels are the later rows'
first cells, and the matrix holds the parsed values of the later rows'
remaining cells; in particular the input `",A,B\nX,2,3\nY,4,5"` yields
column labels `[A, B]`, row labels `[X, Y]` and matrix `[[2,3],[4,5]]`. -/
theorem c2_loader_layout :
    (∀ (header : List (List Char)) (rs : List (List (List Char))),
      (∀ r ∈ rs, r ≠ []) →
      (∀ r ∈ rs, ∀ c ∈ r.drop 1, (parseFloat c).isSome = true) →
      loadFromRows (header :: rs) =
        .ok ⟨rs.map (fun r => r.headD []), header.drop 1,
             rs.map (fun r => (r.drop 1).filterMap parseFloat)⟩) ∧
    loadConfusionMatrix ",A,B\nX,2,3\nY,4,5".data =
      .ok ⟨["X".data, "Y".data], ["A".data, "B".data], [[2, 3], [4, 5]]⟩ :=
  ⟨fun header rs h1 h2 => loadFromRows_eq_ok header rs h1 h2, by decide⟩

theorem c2_loader_layout_witness :
    ((∀ r ∈ ([["X".data, "2".data, "3".data], ["Y".data, "4".data, "5".data]] :
        List (List (List Char))), r ≠ []) ∧
      (∀ r ∈ ([["X".data, "2".data, "3".data], ["Y".data, "4".data, "5".data]] :
        List (List (List Char))), ∀ c ∈ r.drop 1, (parseFloat c).isSome = true)) ∧
    loadFromRows [[[], "A".data, "B".data], ["X".data, "2".data, "3".data],
        ["Y".data, "4".data, "5".data]] =
      .ok ⟨["X".data, "Y".data], ["A".data, "B".data], [[2, 3], [4, 5]]⟩ :=
  ⟨⟨by decide, by decide⟩,
   (c2_loader_layout.1 [[], "A".data, "B".data]
      [["X".data, "2".data, "3".data], ["Y".data, "4".data, "5".data]]
      (by decide) (by decide)).trans (by decide)⟩


/-- C3: a well-formed row list — a header of `C + 1` cells followed by data
rows of `C + 1` cells each, all value cells numeric — loads into a matrix
with exactly one row label per data row, `C` column labels, and data of
dimensions (number of data rows) × `C`. -/
theorem c3_dimensions (C : Nat) (header : List (List Char)) (rs : List (List (List Char)))
    (hh : header.length = C + 1)
    (hlen : ∀ r ∈ rs, r.length = C + 1)
    (hnum : ∀ r ∈ rs, ∀ c ∈ r.drop 1, (parseFloat c).isSome = true) :
    ∃ cm, loadFromRows (header :: rs) = .ok cm ∧
      cm.rowLabels.length = rs.length ∧ cm.colLabels.length = C ∧
      cm.data.length = rs.length ∧ ∀ row ∈ cm.data, row.length = C := by
  have h1 : ∀ r ∈ rs, r ≠ [] := by
    intro r hr he
    have := hlen r hr
    rw [he] at this
    simp at this
  refine ⟨_, loadFromRows_eq_ok header rs h1 hnum, ?_, ?_, ?_, ?_⟩
  · simp
  · simp [hh]
  · simp
  · intro row hrow
    simp only [List.mem_map] at hrow
    obtain ⟨r, hr, rfl⟩ := hrow
    rw [filterMap_length_of_isSome _ _ (hnum r hr)]
    simp [hlen r hr]

theorem c3_dimensions_witness :
    (([[], "A".data, "B".data] : List (List Char)).length = 2 + 1 ∧
      (∀ r ∈ ([["X".data, "2".data, "3".data], ["Y".data, "4".data, "5".data]] :
        List (List (List Char))), r.length = 2 + 1)) ∧
    (∃ cm, loadFromRows ([[], "A".data, "B".data] ::
        [["X".data, "2".data, "3".data], ["Y".data, "4".data, "5".data]]) = .ok cm ∧
      cm.rowLabels.length =
          ([["X".data, "2".data, "3".data], ["Y".data, "4".data, "5".data]] :
            List (List (List Char))).length ∧
      cm.colLabels.length = 2 ∧
      cm.data.length =
          ([["X".data, "2".data, "3".data], ["Y".data, "4".data, "5".data]] :
            List (List (List Char))).length ∧
      ∀ row ∈ cm.data, row.length = 2) :=
  ⟨⟨by decide, by decide⟩,
   c3_dimensions 2 [[], "A".data, "B".data]
     [["X".data, "2".data, "3".data], ["Y".data, "4".data, "5".data]]
     (by decide) (by decide) (by decide)⟩

/-- C9: the loader checks no row shape: any row list whose data rows are
nonempty and numeric loads successfully, and each resulting matrix row
keeps its own input row's value count — ragged inputs included. -/
theorem c9_no_shape_validation (header : List (List Char)) (rs : List (List (List Char)))
    (h1 : ∀ r ∈ rs, r ≠ [])
    (h2 : ∀ r ∈ rs, ∀ c ∈ r.drop 1, (parseFloat c).isSome = true) :
    ∃ cm, loadFromRows (header :: rs) = .ok cm ∧
      cm.data.map List.length = rs.map (fun r => r.length - 1) := by
  refine ⟨_, loadFromRows_eq_ok header rs h1 h2, ?_⟩
  rw [List.map_map]
  apply List.map_congr_left
  intro r hr
  simp only [Function.comp_apply]
  rw [filterMap_length_of_isSome _ _ (h2 r hr)]
  simp

theorem c9_no_shape_validation_witness :
    ((∀ r ∈ ([["X".data, "1".data], ["Y".data, "2".data, "3".data]] :
        List (List (List Char))), r ≠ []) ∧
      (∀ r ∈ ([["X".data, "1".data], ["Y".data, "2".data, "3".data]] :
        List (List (List Char))), ∀ c ∈ r.drop 1, (parseFloat c).isSome = true)) ∧
    (∃ cm, loadFromRows ([["h".data, "A".data]] ++
        [["X".data, "1".data], ["Y".data, "2".data, "3".data]]) = .ok cm ∧
      cm.data.map List.length =
        ([["X".data, "1".data], ["Y".data, "2".data, "3".data]] :
          List (List (List Char))).map (fun r => r.length - 1)) :=
  ⟨⟨by decide, by decide⟩,
   c9_no_shape_validation ["h".data, "A".data]
     [["X".data, "1".data], ["Y".data, "2".data, "3".data]] (by decide) (by decide)⟩

/-- C10: indexing out of bounds in the loader — an empty input file has no
rows, so `rows[0]` raises; an input with a blank line has an empty data
row, so `row[0]` raises; in both cases the loader errors instead of
producing a well-formed empty matrix. -/
theorem c10_index_out_of_bounds :
    loadConfusionMatrix "".data = .error .indexError ∧
    (∀ (header : List (List Char)) (rs : List (List (List Char))),
      [] ∈ rs → (loadFromRows (header :: rs)).isOk = false) ∧
    loadConfusionMatrix "h,A\n\nX,1".data = .error .indexError := by
  refine ⟨by decide, ?_, by decide⟩
  intro header rs hmem
  exact loadFromRows_isOk_false header rs (loadRows_isOk_false rs [] hmem rfl)

theorem c10_index_out_of_bounds_witness :
    ([] ∈ ([[], ["X".data, "1".data]] : List (List (List Char)))) ∧
    (loadFromRows (["h".data, "A".data] :: [[], ["X".data, "1".data]])).isOk = false :=
  ⟨by decide,
   c10_index_out_of_bounds.2.1 ["h".data, "A".data] [[], ["X".data, "1".data]] (by decide)⟩


/-! ### Lemmas about the default output path -/

lemma listStartsWith_iff (pat s : List Char) :
    listStartsWith pat s = true ↔ pat <+: s := by
  induction pat generalizing s with
  | nil => simp [listStartsWith, List.nil_prefix]
  | cons p ps ih =>
    cases s with
    | nil => simp [listStartsWith]
    | cons c cs =>
      simp only [listStartsWith, Bool.and_eq_true, decide_eq_true_eq, ih,
        List.cons_prefix_cons]

lemma replaceAllAux_eq (pat rep : List Char) (fuel1 fuel2 : Nat) (s : List Char)
    (h1 : s.length ≤ fuel1) (h2 : s.length ≤ fuel2) :
    replaceAllAux pat rep fuel1 s = replaceAllAux pat rep fuel2 s := by
  induction fuel1 generalizing fuel2 s with
  | zero =>
    have hs : s = [] := List.length_eq_zero.mp (Nat.le_zero.mp h1)
    subst hs
    cases fuel2 <;> rfl
  | succ f ih =>
    cases s with
    | nil => cases fuel2 <;> rfl
    | cons c rest =>
      cases fuel2 with
      | zero => simp at h2
      | succ g =>
        show (if pat ≠ [] ∧ listStartsWith pat (c :: rest) = true then
            rep ++ replaceAllAux pat rep f ((c :: rest).drop pat.length)
          else c :: replaceAllAux pat rep f rest) =
          (if pat ≠ [] ∧ listStartsWith pat (c :: rest) = true then
            rep ++ replaceAllAux pat rep g ((c :: rest).drop pat.length)
          else c :: replaceAllAux pat rep g rest)
        simp only [List.length_cons] at h1 h2
        by_cases hcond : pat ≠ [] ∧ listStartsWith pat (c :: rest) = true
        · rw [if_pos hcond, if_pos hcond]
          have hpl : 1 ≤ pat.length := List.length_pos.mpr hcond.1
          have hdl : ((c :: rest).drop pat.length).length ≤ f := by
            simp only [List.length_drop, List.length_cons]
            omega
          have hdl2 : ((c :: rest).drop pat.length).length ≤ g := by
            simp only [List.length_drop, List.length_cons]
            omega
          rw [ih _ _ hdl hdl2]
        · rw [if_neg hcond, if_neg hcond]
          rw [ih g rest (by omega) (by omega)]

lemma replaceAll_cons (pat rep : List Char) (c : Char) (rest : List Char) :
    replaceAll pat rep (c :: rest) =
      if pat ≠ [] ∧ listStartsWith pat (c :: rest) = true then
        rep ++ replaceAll pat rep ((c :: rest).drop pat.length)
      else c :: replaceAll pat rep rest := by
  show (if pat ≠ [] ∧ listStartsWith pat (c :: rest) = true then
      rep ++ replaceAllAux pat rep rest.length ((c :: rest).drop pat.length)
    else c :: replaceAllAux pat rep rest.length rest) = _
  by_cases hcond : pat ≠ [] ∧ listStartsWith pat (c :: rest) = true
  · rw [if_pos hcond, if_pos hcond]
    have hpl : 1 ≤ pat.length := List.length_pos.mpr hcond.1
    show rep ++ replaceAllAux pat rep rest.length ((c :: rest).drop pat.length) =
      rep ++ replaceAllAux pat rep ((c :: rest).drop pat.length).length
        ((c :: rest).drop pat.length)
    refine congrArg (rep ++ ·) (replaceAllAux_eq pat rep _ _ _ ?_ (Nat.le_refl _))
    simp only [List.length_drop, List.length_cons]
    omega
  · rw [if_neg hcond, if_neg hcond]
    rfl

lemma replaceAll_of_no_occurrence (pat rep s : List Char) (h : ¬ pat <:+: s) :
    replaceAll pat rep s = s := by
  induction s with
  | nil => rfl
  | cons c rest ih =>
    rw [replaceAll_cons]
    have hcond : ¬ (pat ≠ [] ∧ listStartsWith pat (c :: rest) = true) := by
      rintro ⟨-, hsw⟩
      exact h ((listStartsWith_iff pat (c :: rest)).mp hsw).isInfix
    rw [if_neg hcond, ih (fun hin => h (List.infix_cons hin))]

lemma startsWith_cross_dotCsv (c : Char) (stem : List Char)
    (h : listStartsWith dotCsv ((c :: stem) ++ dotCsv) = true) :
    dotCsv <+: (c :: stem) := by
  have hpre : dotCsv <+: (c :: stem) ++ dotCsv := (listStartsWith_iff _ _).mp h
  have e : dotCsv = '.' :: 'c' :: 's' :: 'v' :: [] := rfl
  rw [e, List.cons_append, List.cons_prefix_cons] at hpre
  obtain ⟨rfl, hpre⟩ := hpre
  cases stem with
  | nil => exact absurd hpre (by decide)
  | cons a stem =>
    rw [List.cons_append, List.cons_prefix_cons] at hpre
    obtain ⟨rfl, hpre⟩ := hpre
    cases stem with
    | nil => exact absurd hpre (by decide)
    | cons b stem =>
      rw [List.cons_append, List.cons_prefix_cons] at hpre
      obtain ⟨rfl, hpre⟩ := hpre
      cases stem with
      | nil => exact absurd hpre (by decide)
      | cons d stem =>
        rw [List.cons_append, List.cons_prefix_cons] at hpre
        obtain ⟨rfl, hpre⟩ := hpre
        rw [e]
        exact ⟨stem, rfl⟩

lemma replaceAll_trailing (rep stem : List Char) (h : ¬ dotCsv <:+: stem) :
    replaceAll dotCsv rep (stem ++ dotCsv) = stem ++ rep := by
  induction stem with
  | nil =>
    rw [List.nil_append, List.nil_append]
    rw [show dotCsv = '.' :: 'c' :: 's' :: 'v' :: [] from rfl]
    rw [replaceAll_cons, if_pos ⟨by decide, by decide⟩]
    rw [show (('.' :: 'c' :: 's' :: 'v' :: []).drop
        ('.' :: 'c' :: 's' :: 'v' :: ([] : List Char)).length) = ([] : List Char) from rfl]
    rw [show replaceAll ('.' :: 'c' :: 's' :: 'v' :: []) rep [] = [] from rfl]
    exact List.append_nil rep
  | cons c stem ih =>
    rw [List.cons_append, replaceAll_cons]
    have hcond : ¬ (dotCsv ≠ [] ∧ listStartsWith dotCsv (c :: (stem ++ dotCsv)) = true) := by
      rintro ⟨-, hsw⟩
      rw [← List.cons_append] at hsw
      exact h (startsWith_cross_dotCsv c stem hsw).isInfix
    rw [if_neg hcond, ih (fun hin => h (List.infix_cons hin))]
    rfl

/-- C4 (counterexample): for the input path `"report.csv.txt"` the derived
default output path is `"report.png.txt"` — the `.csv` substring in the
middle was replaced — and not `"report.csv.png"`, the input path with its
trailing extension replaced, contrary to the claim. -/
theorem c4_counterexample :
    outputPath "report.csv.txt".data none ≠
      specReplaceTrailingExt "report.csv.txt".data dotPng ∧
    outputPath "report.csv.txt".data none = "report.png.txt".data ∧
    specReplaceTrailingExt "report.csv.txt".data dotPng = "report.csv.png".data := by
  decide

/-- C4 (amended): when no explicit output path is supplied, the output
path is the input path with every occurrence of the substring `".csv"`
replaced by `".png"`: a path ending in `".csv"` with no earlier `".csv"`
occurrence gets exactly its trailing extension replaced, a path with no
`".csv"` occurrence is returned unchanged, and additional occurrences are
each replaced (`"a.csv.csv"` becomes `"a.png.png"`). -/
theorem c4_default_output :
    (∀ stem, ¬ dotCsv <:+: stem →
      outputPath (stem ++ dotCsv) none = stem ++ dotPng) ∧
    (∀ p, ¬ dotCsv <:+: p → outputPath p none = p) ∧
    outputPath "a.csv.csv".data none = "a.png.png".data := by
  refine ⟨?_, ?_, by decide⟩
  · intro stem h
    exact replaceAll_trailing dotPng stem h
  · intro p h
    exact replaceAll_of_no_occurrence dotCsv dotPng p h

theorem c4_default_output_witness :
    (¬ dotCsv <:+: "results/confusion_matrix".data) ∧
    outputPath ("results/confusion_matrix".data ++ dotCsv) none =
      "results/confusion_matrix".data ++ dotPng :=
  ⟨by decide, c4_default_output.1 "results/confusion_matrix".data (by decide)⟩


/-! ### Lemmas about the directory scanner and batch loop -/

lemma globMatch_lit (lit s : List Char) (hstar : '*' ∉ lit) :
    globMatch lit s = true ↔ lit = s := by
  induction lit generalizing s with
  | nil => cases s <;> simp [globMatch]
  | cons p ps ih =>
    have hp : p ≠ '*' := fun he => hstar (he ▸ List.mem_cons_self p ps)
    have hps : '*' ∉ ps := fun hm => hstar (List.mem_cons_of_mem _ hm)
    cases s with
    | nil => simp [globMatch, hp]
    | cons c cs =>
      simp [globMatch, hp, ih cs hps, List.cons.injEq]

lemma globMatch_star (ps s : List Char) :
    globMatch ('*' :: ps) s = true ↔ ∃ n, globMatch ps (s.drop n) = true := by
  show (List.range (s.length + 1)).any (fun n => globMatch ps (s.drop n)) = true ↔ _
  rw [List.any_eq_true]
  constructor
  · rintro ⟨n, _, hgm⟩
    exact ⟨n, hgm⟩
  · rintro ⟨n, hn⟩
    by_cases hle : n ≤ s.length
    · exact ⟨n, List.mem_range.mpr (by omega), hn⟩
    · refine ⟨s.length, List.mem_range.mpr (by omega), ?_⟩
      have h1 : s.drop n = [] := List.drop_eq_nil_of_le (by omega)
      have h2 : s.drop s.length = [] := List.drop_eq_nil_of_le (Nat.le_refl _)
      rw [h2, ← h1]
      exact hn

lemma suffix_iff_exists_drop (lit s : List Char) :
    lit <:+ s ↔ ∃ n, lit = s.drop n := by
  constructor
  · rintro ⟨t, rfl⟩
    exact ⟨t.length, (List.drop_left t lit).symm⟩
  · rintro ⟨n, rfl⟩
    exact List.drop_suffix n s

lemma plot_eq_ok (content p : List Char) (o : Option (List Char)) (cm : ConfusionMatrix)
    (h : loadConfusionMatrix content = .ok cm) :
    plotConfusionMatrix content p o = .ok (cm, outputPath p o) := by
  simp [plotConfusionMatrix, h]

lemma plot_eq_error (content p : List Char) (o : Option (List Char)) (e : LoadError)
    (h : loadConfusionMatrix content = .error e) :
    plotConfusionMatrix content p o = .error e := by
  simp [plotConfusionMatrix, h]

lemma processFiles_all_ok (files : List FsFile)
    (h : ∀ f ∈ files, (loadConfusionMatrix f.content).isOk = true) :
    processFiles files = (files.map (fun f => defaultOutputPath f.path), []) := by
  induction files with
  | nil => rfl
  | cons f fs ih =>
    have hf := h f (by simp)
    simp only [processFiles, List.map_cons]
    rw [ih (fun x hx => h x (by simp [hx]))]
    cases hl : loadConfusionMatrix f.content with
    | error e => rw [hl] at hf; simp at hf
    | ok cm =>
      rw [plot_eq_ok f.content f.path none cm hl]
      rfl

lemma processFiles_append (as bs : List FsFile) :
    processFiles (as ++ bs) =
      ((processFiles as).1 ++ (processFiles bs).1,
       (processFiles as).2 ++ (processFiles bs).2) := by
  induction as with
  | nil => simp [processFiles]
  | cons f fs ih =>
    simp only [List.cons_append, processFiles]
    cases plotConfusionMatrix f.content f.path none <;> simp [ih]


/-- C8: the directory scanner selects exactly the files, anywhere in the
tree, whose name ends with `"confusion_matrix.csv"`: the glob pattern
`*confusion_matrix.csv` matches a name precisely when that suffix matches,
so `"my_confusion_matrix.csv"` matches and `"confusion_matrix.txt"` does
not. -/
theorem c8_scanner_suffix :
    (∀ (fs : List FsFile) (f : FsFile),
      f ∈ findMatrixFiles fs ↔ f ∈ fs ∧ "confusion_matrix.csv".data <:+ f.name) ∧
    globMatch matrixGlob "my_confusion_matrix.csv".data = true ∧
    globMatch matrixGlob "confusion_matrix.txt".data = false := by
  refine ⟨?_, by decide, by decide⟩
  intro fs f
  rw [findMatrixFiles, List.mem_filter]
  apply and_congr_right
  intro _
  rw [show matrixGlob = '*' :: "confusion_matrix.csv".data from rfl, globMatch_star,
    suffix_iff_exists_drop]
  constructor
  · rintro ⟨n, hn⟩
    exact ⟨n, (globMatch_lit _ _ (by decide)).mp hn⟩
  · rintro ⟨n, hn⟩
    exact ⟨n, (globMatch_lit _ _ (by decide)).mpr hn⟩

/-- C6: when the scan of the tree finds no matching file, directory mode
reports the nothing-found message, writes no image, reports no error, and
the process exits with status 0. -/
theorem c6_no_matches (fs : List FsFile) (h : findMatrixFiles fs = []) :
    mainOnDirectory fs = (0, ⟨true, 0, [], []⟩) := by
  unfold mainOnDirectory plotAllConfusionMatrices
  rw [h]
  rfl

theorem c6_no_matches_witness :
    findMatrixFiles [⟨"d/readme.txt".data, "readme.txt".data, "hello".data⟩] = [] ∧
    mainOnDirectory [⟨"d/readme.txt".data, "readme.txt".data, "hello".data⟩] =
      (0, ⟨true, 0, [], []⟩) :=
  ⟨by decide,
   c6_no_matches [⟨"d/readme.txt".data, "readme.txt".data, "hello".data⟩] (by decide)⟩

/-- C5: in batch mode a single malformed file among the matches does not
abort the loop: every other matching file still yields an image at its
default output path, in order, and exactly one error is reported, naming
the malformed file's path. -/
theorem c5_failure_isolation (fs pre post : List FsFile) (bad : FsFile)
    (hsplit : findMatrixFiles fs = pre ++ bad :: post)
    (hpre : ∀ f ∈ pre, (loadConfusionMatrix f.content).isOk = true)
    (hpost : ∀ f ∈ post, (loadConfusionMatrix f.content).isOk = true)
    (hbad : (loadConfusionMatrix bad.content).isOk = false) :
    plotAllConfusionMatrices fs =
      ⟨false, pre.length + 1 + post.length,
       (pre ++ post).map (fun f => defaultOutputPath f.path), [bad.path]⟩ := by
  unfold plotAllConfusionMatrices
  rw [hsplit]
  have hne : (pre ++ bad :: post).isEmpty = false := by simp
  simp only [hne, Bool.false_eq_true, if_false]
  have hbadrow : processFiles (bad :: post) =
      ((processFiles post).1, bad.path :: (processFiles post).2) := by
    cases hl : loadConfusionMatrix bad.content with
    | ok cm => rw [hl] at hbad; simp at hbad
    | error e =>
      simp only [processFiles]
      rw [plot_eq_error bad.content bad.path none e hl]
  rw [processFiles_append, hbadrow, processFiles_all_ok pre hpre,
    processFiles_all_ok post hpost]
  simp [BatchResult.mk.injEq, List.map_append]
  try omega

theorem c5_failure_isolation_witness :
    (findMatrixFiles
        [⟨"a/confusion_matrix.csv".data, "confusion_matrix.csv".data, ",A\nX,1".data⟩,
         ⟨"b/confusion_matrix.csv".data, "confusion_matrix.csv".data, ",A\nX,oops".data⟩,
         ⟨"c/confusion_matrix.csv".data, "confusion_matrix.csv".data, ",A\nY,2".data⟩] =
      [⟨"a/confusion_matrix.csv".data, "confusion_matrix.csv".data, ",A\nX,1".data⟩] ++
        ⟨"b/confusion_matrix.csv".data, "confusion_matrix.csv".data, ",A\nX,oops".data⟩ ::
        [⟨"c/confusion_matrix.csv".data, "confusion_matrix.csv".data, ",A\nY,2".data⟩]) ∧
    plotAllConfusionMatrices
        [⟨"a/confusion_matrix.csv".data, "confusion_matrix.csv".data, ",A\nX,1".data⟩,
         ⟨"b/confusion_matrix.csv".data, "confusion_matrix.csv".data, ",A\nX,oops".data⟩,
         ⟨"c/confusion_matrix.csv".data, "confusion_matrix.csv".data, ",A\nY,2".data⟩] =
      ⟨false, 3, ["a/confusion_matrix.png".data, "c/confusion_matrix.png".data],
       ["b/confusion_matrix.csv".data]⟩ :=
  ⟨by decide,
   (c5_failure_isolation
      [⟨"a/confusion_matrix.csv".data, "confusion_matrix.csv".data, ",A\nX,1".data⟩,
       ⟨"b/confusion_matrix.csv".data, "confusion_matrix.csv".data, ",A\nX,oops".data⟩,
       ⟨"c/confusion_matrix.csv".data, "confusion_matrix.csv".data, ",A\nY,2".data⟩]
      [⟨"a/confusion_matrix.csv".data, "confusion_matrix.csv".data, ",A\nX,1".data⟩]
      [⟨"c/confusion_matrix.csv".data, "confusion_matrix.csv".data, ",A\nY,2".data⟩]
      ⟨"b/confusion_matrix.csv".data, "confusion_matrix.csv".data, ",A\nX,oops".data⟩
      (by decide) (by decide) (by decide) (by decide)).trans (by decide)⟩

/-- C7: in single-file mode, when an explicit output path is supplied and
the run succeeds, the image is written exactly to that path — the derived
default plays no part. -/
theorem c7_explicit_output (content csvFile o : List Char)
    (r : ConfusionMatrix × List Char)
    (h : plotConfusionMatrix content csvFile (some o) = .ok r) : r.2 = o := by
  unfold plotConfusionMatrix at h
  cases hl : loadConfusionMatrix content with
  | error e => rw [hl] at h; simp at h
  | ok cm =>
    rw [hl] at h
    simp only [Except.ok.injEq] at h
    rw [← h]
    rfl

theorem c7_explicit_output_witness :
    plotConfusionMatrix ",A\nX,1".data "in.csv".data (some "custom.png".data) =
      .ok (⟨["X".data], ["A".data], [[1]]⟩, "custom.png".data) ∧
    ((⟨["X".data], ["A".data], [[1]]⟩ : ConfusionMatrix), "custom.png".data).2 =
      "custom.png".data :=
  ⟨by decide,
   c7_explicit_output ",A\nX,1".data "in.csv".data "custom.png".data
     (⟨["X".data], ["A".data], [[1]]⟩, "custom.png".data) (by decide)⟩

end PlotCM
